import Mathlib

/-!
# Slide-deck navigation controller (`src/presentation/script.js`)

A shallow embedding of the `DOMContentLoaded` handler of the presentation
script: the closure variables (`currentSlide`, `totalSlides`), the five DOM
queries, the render function `updateSlide`, the two navigation functions
`nextSlide` / `prevSlide`, and the click / key-down listeners.

Modelling conventions.

* Of every DOM element only the properties the script writes are kept: the
  class list of a slide, the `textContent` of the counter, `style.width` of the
  progress bar, `style.opacity` and `style.cursor` of the two buttons.
* A DOM query that finds nothing yields `null` (`none`); reading a property of
  `null` throws a `TypeError`, which ends the running handler and keeps every
  effect made before it.
* `currentSlide` is an integer (`Int`), `totalSlides` a length (`Nat`); the
  comparisons and `totalSlides - 1` are evaluated in `Int`, as in the script.
* Integer-valued Numbers (`currentSlide`, `totalSlides`, sums and differences
  of them) are exact, as they are in the script below `2 ^ 53`.
* The Number `progress` is computed as the script computes it, in binary64:
  the quotient is rounded to the nearest binary64 value (ties to even), the
  product with 100 is rounded again, a zero divisor gives `Infinity`,
  `-Infinity` or `NaN`, and a result beyond the binary64 range is infinite.
  A finite Number is kept as the rational it denotes.
* `style.width` records the text the script assigns (the template
  `${progress}%`), kept structured as the Number in front of the percent sign.
-/

namespace Presentation

/-! ## Data model -/

/-- Number values that `((currentSlide + 1) / totalSlides) * 100` can take. -/
inductive JSNumber where
  | finite (q : ℚ)
  | posInfinity
  | negInfinity
  | nan
  deriving DecidableEq

/-- Rounding of a rational to the nearest integer, a tie going to the even
neighbour. -/
def roundHalfEven (m : ℚ) : ℤ :=
  if m - ⌊m⌋ < 1 / 2 then ⌊m⌋
  else if 1 / 2 < m - ⌊m⌋ then ⌊m⌋ + 1
  else if ⌊m⌋ % 2 = 0 then ⌊m⌋ else ⌊m⌋ + 1

/-- Spacing of the binary64 values around `q`: `2 ^ (e - 52)` where `2 ^ e` is
the power of two at or below the magnitude of `q`, and `e` is at least `-1022`
(below that the values are subnormal and evenly spaced). -/
def ulp64 (q : ℚ) : ℚ :=
  (2 : ℚ) ^ (max (Int.log 2 |q|) (-1022) - 52)

/-- Rounding of a rational to the nearest multiple of the binary64 spacing
around it, ties to even: the binary64 value of an exact result, as long as it
is in range. -/
def roundBinary64 (q : ℚ) : ℚ :=
  roundHalfEven (q / ulp64 q) * ulp64 q

/-- The Number of an exact result `q`: rounded to binary64, infinite when the
rounded magnitude reaches `2 ^ 1024`. -/
def JSNumber.ofRat (q : ℚ) : JSNumber :=
  if (2 : ℚ) ^ 1024 ≤ roundBinary64 q then .posInfinity
  else if roundBinary64 q ≤ -(2 : ℚ) ^ 1024 then .negInfinity
  else .finite (roundBinary64 q)

/-- Quotient `a / b` of two integer-valued Numbers; a zero divisor gives
`Infinity`, `-Infinity` or `NaN` according to the sign of the dividend. -/
def JSNumber.divInt (a b : Int) : JSNumber :=
  if b ≠ 0 then JSNumber.ofRat ((a : ℚ) / (b : ℚ))
  else if 0 < a then .posInfinity
  else if a < 0 then .negInfinity
  else .nan

/-- Product `x * 100`. -/
def JSNumber.mul100 : JSNumber → JSNumber
  | .finite q => JSNumber.ofRat (q * 100)
  | .posInfinity => .posInfinity
  | .negInfinity => .negInfinity
  | .nan => .nan

/-- The two style properties of a button that the script writes. -/
structure Style where
  opacity : String
  cursor : String
  deriving DecidableEq

/-- Text of `style.width` of the progress bar: what the startup document
carried, or the template `${progress}%` written by `updateSlide`. -/
inductive WidthText where
  | startup (text : String)
  | percent (progress : JSNumber)
  deriving DecidableEq

/-- The startup document as the five queries of the script see it: the class
lists of the `.slide` elements in document order, and the four handles, each
`none` when the query finds no element. -/
structure Document where
  slides : List (List String)
  prevBtn : Option Style
  nextBtn : Option Style
  counter : Option String
  progressBar : Option WidthText
  deriving DecidableEq

/-- Which of the three listeners have been registered. -/
structure Listeners where
  nextBtnClick : Bool
  prevBtnClick : Bool
  keydown : Bool
  deriving DecidableEq

/-- State of the page: the DOM properties, the closure variables
`currentSlide` and `totalSlides`, and the registered listeners. -/
structure State extends Document where
  currentSlide : Int
  totalSlides : Nat
  listeners : Listeners
  deriving DecidableEq

/-- The handles whose absence makes a property access throw. -/
inductive Handle where
  | prevBtn
  | nextBtn
  | counter
  | progressBar
  deriving DecidableEq

/-- How a handler ends: it runs to its end, or a `TypeError` is thrown on a
`null` handle; in both cases the state reached so far stays. -/
inductive Outcome where
  | completed (s : State)
  | threw (nullHandle : Handle) (s : State)
  deriving DecidableEq

/-- The state a handler leaves behind. -/
def Outcome.state : Outcome → State
  | .completed s => s
  | .threw _ s => s

/-- Input events the script listens to. -/
inductive Event where
  | clickNext
  | clickPrev
  | keydown (key : String)
  deriving DecidableEq

/-! ## The script -/

/-- Embeds `classList.remove(token)`. -/
def classListRemove (token : String) (classes : List String) : List String :=
  classes.filter (fun c => c ≠ token)

/-- Embeds `classList.add(token)`. -/
def classListAdd (token : String) (classes : List String) : List String :=
  if token ∈ classes then classes else classes ++ [token]

/-- Embeds the `slides.forEach((slide, index) => ...)` loop of `updateSlide`,
from position `index` on. -/
def forEachSlide (currentSlide : Int) : Nat → List (List String) → List (List String)
  | _, [] => []
  | index, slide :: rest =>
    let removed := classListRemove "active" slide
    (if (index : Int) = currentSlide then classListAdd "active" removed else removed)
      :: forEachSlide currentSlide (index + 1) rest

/-- Embeds `updateSlide()`. -/
def updateSlide (s : State) : Outcome :=
  -- Update classes
  let s1 : State := { s with slides := forEachSlide s.currentSlide 0 s.slides }
  -- Update counter
  match s1.counter with
  | none => .threw .counter s1
  | some _ =>
    let s2 : State :=
      { s1 with counter := some (toString (s.currentSlide + 1) ++ " / " ++ toString s.totalSlides) }
    -- Update progress bar
    let progress := (JSNumber.divInt (s.currentSlide + 1) s.totalSlides).mul100
    match s2.progressBar with
    | none => .threw .progressBar s2
    | some _ =>
      let s3 : State := { s2 with progressBar := some (.percent progress) }
      -- Update button states
      match s3.prevBtn with
      | none => .threw .prevBtn s3
      | some _ =>
        let prevStyle : Style :=
          { opacity := if s.currentSlide = 0 then "0.5" else "1"
            cursor := if s.currentSlide = 0 then "default" else "pointer" }
        let s4 : State := { s3 with prevBtn := some prevStyle }
        match s4.nextBtn with
        | none => .threw .nextBtn s4
        | some _ =>
          let nextStyle : Style :=
            { opacity := if s.currentSlide = (s.totalSlides : Int) - 1 then "0.5" else "1"
              cursor := if s.currentSlide = (s.totalSlides : Int) - 1 then "default"
                else "pointer" }
          .completed { s4 with nextBtn := some nextStyle }

/-- Embeds `nextSlide()`. -/
def nextSlide (s : State) : Outcome :=
  if s.currentSlide < (s.totalSlides : Int) - 1 then
    updateSlide { s with currentSlide := s.currentSlide + 1 }
  else .completed s

/-- Embeds `prevSlide()`. -/
def prevSlide (s : State) : Outcome :=
  if s.currentSlide > 0 then
    updateSlide { s with currentSlide := s.currentSlide - 1 }
  else .completed s

/-- Embeds the `keydown` listener. -/
def keydownListener (s : State) (key : String) : Outcome :=
  if key = "ArrowRight" ∨ key = " " ∨ key = "Enter" then nextSlide s
  else if key = "ArrowLeft" then prevSlide s
  else .completed s

/-- Embeds the `DOMContentLoaded` handler: the queries (given by the document),
the closure variables, the three `addEventListener` calls and the first
`updateSlide()`. -/
def domContentLoaded (d : Document) : Outcome :=
  let s0 : State :=
    { toDocument := d
      currentSlide := 0
      totalSlides := d.slides.length
      listeners := { nextBtnClick := false, prevBtnClick := false, keydown := false } }
  -- Event Listeners
  match s0.nextBtn with
  | none => .threw .nextBtn s0
  | some _ =>
    let s1 : State := { s0 with listeners := { s0.listeners with nextBtnClick := true } }
    match s1.prevBtn with
    | none => .threw .prevBtn s1
    | some _ =>
      let s2 : State := { s1 with listeners := { s1.listeners with prevBtnClick := true } }
      -- Keyboard Navigation
      let s3 : State := { s2 with listeners := { s2.listeners with keydown := true } }
      -- Initialize
      updateSlide s3

/-- Delivery of one event to the listeners registered for it. -/
def dispatch (s : State) : Event → Outcome
  | .clickNext => if s.listeners.nextBtnClick then nextSlide s else .completed s
  | .clickPrev => if s.listeners.prevBtnClick then prevSlide s else .completed s
  | .keydown key => if s.listeners.keydown then keydownListener s key else .completed s

/-- State of the page after a sequence of events, delivered one at a time. -/
def run (s : State) : List Event → State
  | [] => s
  | e :: es => run (dispatch s e).state es

/-- A slide is active when its class list contains `active`. -/
def isActive (slide : List String) : Bool :=
  decide ("active" ∈ slide)

/-- Embeds `n` consecutive calls of `nextSlide()`. -/
def nextSlideTimes : Nat → State → State
  | 0, s => s
  | n + 1, s => nextSlideTimes n (nextSlide s).state

/-- Embeds `n` consecutive calls of `prevSlide()`. -/
def prevSlideTimes : Nat → State → State
  | 0, s => s
  | n + 1, s => prevSlideTimes n (prevSlide s).state

/-- A five-slide startup document with all four handles, the second and the
fourth slide carrying a stale `active` mark. -/
def deck5 : Document :=
  { slides := [["slide"], ["slide", "active"], ["slide"], ["slide", "active"], ["slide"]]
    prevBtn := some { opacity := "", cursor := "" }
    nextBtn := some { opacity := "", cursor := "" }
    counter := some ""
    progressBar := some (.startup "") }

/-- A startup document with all four handles and no slide. -/
def emptyDeck : Document :=
  { slides := []
    prevBtn := some { opacity := "", cursor := "" }
    nextBtn := some { opacity := "", cursor := "" }
    counter := some ""
    progressBar := some (.startup "") }

/-- A three-slide startup document with all four handles. -/
def deck3 : Document :=
  { slides := [["slide", "active"], ["slide"], ["slide"]]
    prevBtn := some { opacity := "", cursor := "" }
    nextBtn := some { opacity := "", cursor := "" }
    counter := some ""
    progressBar := some (.startup "") }

/-- The five-slide startup document without a progress bar. -/
def deckNoProgress : Document :=
  { deck5 with progressBar := none }

/-- The five-slide startup document without a retreat control. -/
def deckNoPrev : Document :=
  { deck5 with prevBtn := none }

/-! ## Vocabulary of the properties -/

/-- All four handles were found by the queries. -/
def Document.handlesPresent (d : Document) : Bool :=
  d.prevBtn.isSome && d.nextBtn.isSome && d.counter.isSome && d.progressBar.isSome

/-- The three listeners of the script are all registered. -/
def Listeners.all : Listeners :=
  { nextBtnClick := true, prevBtnClick := true, keydown := true }

/-- Listeners already registered when the `DOMContentLoaded` handler throws on
the given handle: `nextBtn` is dereferenced first, then `prevBtn`, and the
counter and the progress bar only in the first render. -/
def listenersAtThrow : Handle → Listeners
  | .nextBtn => { nextBtnClick := false, prevBtnClick := false, keydown := false }
  | .prevBtn => { nextBtnClick := true, prevBtnClick := false, keydown := false }
  | .counter => Listeners.all
  | .progressBar => Listeners.all

/-- The finite binary64 values: an integer significand below `2 ^ 53` in
magnitude times a power of two whose exponent is at least `-1074`. -/
def IsBinary64 (f : ℚ) : Prop :=
  ∃ (k E : ℤ), |k| < 2 ^ 53 ∧ -1074 ≤ E ∧ f = k * (2 : ℚ) ^ E

/-- The disabled affordance of a control: reduced opacity, default cursor. -/
def disabledStyle : Style :=
  { opacity := "0.5", cursor := "default" }

/-- The full affordance of a control. -/
def fullStyle : Style :=
  { opacity := "1", cursor := "pointer" }

/-- The rendered fields of a page: the active flag of every slide in document
order, the counter text, the progress width and the two button styles. -/
structure View where
  activeFlags : List Bool
  counterText : Option String
  progressWidth : Option WidthText
  prevStyle : Option Style
  nextStyle : Option Style
  deriving DecidableEq

/-- The rendered fields of a state. -/
def State.view (s : State) : View :=
  { activeFlags := s.slides.map isActive
    counterText := s.counter
    progressWidth := s.progressBar
    prevStyle := s.prevBtn
    nextStyle := s.nextBtn }

/-- The view that is synchronised with cursor `c` for slide count `total`,
over `count` slide elements: only the slide at index `c` is active, the counter
reads `c + 1`, a blank-padded slash and `total`, the progress is the Number
`((c + 1) / total) * 100`, and each control is disabled at its end. -/
def viewOf (c : Int) (total count : Nat) : View :=
  { activeFlags := (List.range count).map (fun (i : Nat) => decide ((i : Int) = c))
    counterText := some (toString (c + 1) ++ " / " ++ toString total)
    progressWidth := some (.percent (JSNumber.divInt (c + 1) total).mul100)
    prevStyle := some (if c = 0 then disabledStyle else fullStyle)
    nextStyle := some (if c = (total : Int) - 1 then disabledStyle else fullStyle) }

/-- Invariant of an initialised page with at least one slide: the listeners
are registered, `totalSlides` is the number of slide elements, the cursor is a
valid index and the view is synchronised with it. -/
def Ready (s : State) : Prop :=
  s.listeners = Listeners.all ∧ s.totalSlides = s.slides.length ∧
    0 ≤ s.currentSlide ∧ s.currentSlide < (s.totalSlides : Int) ∧
    s.view = viewOf s.currentSlide s.totalSlides s.totalSlides

instance (s : State) : Decidable (Ready s) := by
  unfold Ready
  infer_instance

/-! ## Binary64 rounding -/

theorem floor_le_roundHalfEven (m : ℚ) : ⌊m⌋ ≤ roundHalfEven m := by
  unfold roundHalfEven
  split_ifs <;> omega

theorem roundHalfEven_le_floor_succ (m : ℚ) : roundHalfEven m ≤ ⌊m⌋ + 1 := by
  unfold roundHalfEven
  split_ifs <;> omega

theorem le_roundHalfEven (m : ℚ) (j : ℤ) (h : (j : ℚ) ≤ m) : j ≤ roundHalfEven m :=
  le_trans (Int.le_floor.2 h) (floor_le_roundHalfEven m)

theorem roundHalfEven_le (m : ℚ) (j : ℤ) (h : m ≤ (j : ℚ)) : roundHalfEven m ≤ j := by
  by_cases hm : m = (⌊m⌋ : ℚ)
  · have h1 : roundHalfEven m = ⌊m⌋ := by
      unfold roundHalfEven
      rw [if_pos]
      rw [← hm]; norm_num
    rw [h1]
    have : ((⌊m⌋ : ℤ) : ℚ) ≤ j := by rw [← hm]; exact h
    exact_mod_cast this
  · have h1 : (⌊m⌋ : ℚ) < m := lt_of_le_of_ne (Int.floor_le m) (Ne.symm hm)
    have h2 : ((⌊m⌋ : ℤ) : ℚ) < j := lt_of_lt_of_le h1 h
    have h3 : ⌊m⌋ < j := by exact_mod_cast h2
    have := roundHalfEven_le_floor_succ m
    omega

theorem roundHalfEven_eq (m : ℚ) (k : ℤ) (h : |m - k| < 1 / 2) : roundHalfEven m = k := by
  rw [abs_lt] at h
  obtain ⟨hlo, hhi⟩ := h
  have hf := Int.floor_le m
  have hf2 := Int.lt_floor_add_one m
  unfold roundHalfEven
  split_ifs with h1 h2 h3
  · -- floor
    have a1 : ((⌊m⌋ : ℤ) : ℚ) < k + 1 := by linarith
    have a2 : (k : ℚ) < ⌊m⌋ + 1 := by linarith
    have b1 : ⌊m⌋ < k + 1 := by exact_mod_cast a1
    have b2 : k < ⌊m⌋ + 1 := by exact_mod_cast a2
    omega
  · have a1 : ((⌊m⌋ : ℤ) : ℚ) + 1 < k + 1 := by linarith
    have a2 : (k : ℚ) < ⌊m⌋ + 1 + 1 := by linarith
    have b1 : ⌊m⌋ + 1 < k + 1 := by exact_mod_cast a1
    have b2 : k < ⌊m⌋ + 1 + 1 := by exact_mod_cast a2
    omega
  · exfalso
    have hfr : m - ⌊m⌋ = 1 / 2 := le_antisymm (not_lt.1 h2) (not_lt.1 h1)
    have a1 : ((⌊m⌋ : ℤ) : ℚ) < k := by linarith
    have a2 : (k : ℚ) < ⌊m⌋ + 1 := by linarith
    have b1 : ⌊m⌋ < k := by exact_mod_cast a1
    have b2 : k < ⌊m⌋ + 1 := by exact_mod_cast a2
    omega
  · exfalso
    have hfr : m - ⌊m⌋ = 1 / 2 := le_antisymm (not_lt.1 h2) (not_lt.1 h1)
    have a1 : ((⌊m⌋ : ℤ) : ℚ) < k := by linarith
    have a2 : (k : ℚ) < ⌊m⌋ + 1 := by linarith
    have b1 : ⌊m⌋ < k := by exact_mod_cast a1
    have b2 : k < ⌊m⌋ + 1 := by exact_mod_cast a2
    omega

theorem ulp64_pos (q : ℚ) : 0 < ulp64 q := zpow_pos (by norm_num) _

theorem mul_zpow_eq_int_mul (k E e : ℤ) (h : e ≤ E) :
    ∃ j : ℤ, (k : ℚ) * (2 : ℚ) ^ E = j * (2 : ℚ) ^ e := by
  refine ⟨k * 2 ^ (E - e).toNat, ?_⟩
  have h1 : E = (E - e).toNat + e := by omega
  conv_lhs => rw [h1, zpow_add₀ (by norm_num : (2 : ℚ) ≠ 0), zpow_natCast]
  push_cast
  ring

theorem binary64_lt_zpow (k E e : ℤ) (hk : |k| < 2 ^ 53) (h : E + 53 ≤ e) :
    (k : ℚ) * (2 : ℚ) ^ E < (2 : ℚ) ^ e := by
  have hk1 : k < 2 ^ 53 := lt_of_le_of_lt (le_abs_self k) hk
  have hk2 : (k : ℚ) < 2 ^ 53 := by exact_mod_cast hk1
  have hpos : (0 : ℚ) < (2 : ℚ) ^ E := zpow_pos (by norm_num) _
  calc (k : ℚ) * (2 : ℚ) ^ E < 2 ^ 53 * (2 : ℚ) ^ E := by
        exact mul_lt_mul_of_pos_right hk2 hpos
    _ = (2 : ℚ) ^ (E + 53) := by
        rw [zpow_add₀ (by norm_num : (2 : ℚ) ≠ 0)]
        norm_num
        ring
    _ ≤ (2 : ℚ) ^ e := zpow_le_zpow_right₀ (by norm_num) h

theorem roundBinary64_le (q f : ℚ) (hq : 0 < q) (hf : IsBinary64 f) (h : q ≤ f) :
    roundBinary64 q ≤ f := by
  obtain ⟨k, E, hk, hE, rfl⟩ := hf
  have habs : |q| = q := abs_of_pos hq
  by_cases hc : max (Int.log 2 |q|) (-1022) - 52 ≤ E
  · obtain ⟨j, hj⟩ := mul_zpow_eq_int_mul k E _ hc
    have hu := ulp64_pos q
    unfold roundBinary64
    rw [hj]
    change _ ≤ (j : ℚ) * ulp64 q
    have hm : q / ulp64 q ≤ j := by
      rw [div_le_iff₀ hu]
      rw [hj] at h
      exact h
    have := roundHalfEven_le _ j hm
    have h2 : ((roundHalfEven (q / ulp64 q) : ℤ) : ℚ) ≤ j := by exact_mod_cast this
    exact mul_le_mul_of_nonneg_right h2 (le_of_lt hu)
  · exfalso
    push_neg at hc
    rcases max_choice (Int.log 2 |q|) (-1022) with hm | hm
    · rw [hm] at hc
      have h1 := binary64_lt_zpow k E (Int.log 2 |q|) hk (by omega)
      have h2 : ((2 : ℕ) : ℚ) ^ Int.log 2 |q| ≤ |q| :=
        Int.zpow_log_le_self (by norm_num) (by rw [habs]; exact hq)
      rw [habs] at h2
      norm_num at h2
      rw [habs] at h1
      linarith
    · rw [hm] at hc
      omega

theorem le_roundBinary64 (q f : ℚ) (hf0 : 0 < f) (hf : IsBinary64 f) (h : f ≤ q) :
    f ≤ roundBinary64 q := by
  obtain ⟨k, E, hk, hE, rfl⟩ := hf
  have hq : 0 < q := lt_of_lt_of_le hf0 h
  have habs : |q| = q := abs_of_pos hq
  have hu := ulp64_pos q
  by_cases hc : max (Int.log 2 |q|) (-1022) - 52 ≤ E
  · obtain ⟨j, hj⟩ := mul_zpow_eq_int_mul k E _ hc
    unfold roundBinary64
    rw [hj]
    change (j : ℚ) * ulp64 q ≤ _
    have hm : (j : ℚ) ≤ q / ulp64 q := by
      rw [le_div_iff₀ hu]
      rw [hj] at h
      exact h
    have := le_roundHalfEven _ j hm
    have h2 : (j : ℚ) ≤ ((roundHalfEven (q / ulp64 q) : ℤ) : ℚ) := by exact_mod_cast this
    exact mul_le_mul_of_nonneg_right h2 (le_of_lt hu)
  · push_neg at hc
    rcases max_choice (Int.log 2 |q|) (-1022) with hm | hm
    · rw [hm] at hc
      have h1 := binary64_lt_zpow k E (Int.log 2 |q|) hk (by omega)
      have h2 : ((2 : ℕ) : ℚ) ^ Int.log 2 |q| ≤ |q| :=
        Int.zpow_log_le_self (by norm_num) (by rw [habs]; exact hq)
      -- 2 ^ log ≤ round
      have hul : ulp64 q = (2 : ℚ) ^ (Int.log 2 |q| - 52) := by
        unfold ulp64; rw [hm]
      have h3 : ((2 : ℤ) ^ 52 : ℤ) ≤ roundHalfEven (q / ulp64 q) := by
        apply le_roundHalfEven
        rw [le_div_iff₀ hu, hul]
        have : (((2 : ℤ) ^ 52 : ℤ) : ℚ) * (2 : ℚ) ^ (Int.log 2 |q| - 52)
            = (2 : ℚ) ^ Int.log 2 |q| := by
          rw [sub_eq_add_neg, zpow_add₀ (by norm_num : (2 : ℚ) ≠ 0)]
          norm_num
          field_simp
        rw [this]
        rw [habs] at h2 ⊢
        exact_mod_cast h2
      have h4 : (((2 : ℤ) ^ 52 : ℤ) : ℚ) ≤ ((roundHalfEven (q / ulp64 q) : ℤ) : ℚ) := by
        exact_mod_cast h3
      unfold roundBinary64
      have h5 : (((2 : ℤ) ^ 52 : ℤ) : ℚ) * ulp64 q = (2 : ℚ) ^ Int.log 2 |q| := by
        rw [hul, sub_eq_add_neg, zpow_add₀ (by norm_num : (2 : ℚ) ≠ 0)]
        norm_num
        field_simp
      have h6 := mul_le_mul_of_nonneg_right h4 (le_of_lt hu)
      rw [h5] at h6
      linarith
    · rw [hm] at hc
      omega

theorem ulp64_eq (q : ℚ) (e : ℤ) (he : -1022 ≤ e) (hlo : (2 : ℚ) ^ e ≤ |q|)
    (hhi : |q| < (2 : ℚ) ^ (e + 1)) : ulp64 q = (2 : ℚ) ^ (e - 52) := by
  have hq : 0 < |q| := lt_of_lt_of_le (zpow_pos (by norm_num) _) hlo
  have h1 : e ≤ Int.log 2 |q| :=
    (Int.zpow_le_iff_le_log (by norm_num) hq).1 (by exact_mod_cast hlo)
  have h2 : Int.log 2 |q| < e + 1 :=
    (Int.lt_zpow_iff_log_lt (by norm_num) hq).1 (by exact_mod_cast hhi)
  have h3 : max (Int.log 2 |q|) (-1022) = e := by
    rw [max_eq_left (by omega)]
    omega
  unfold ulp64
  rw [h3]

theorem roundBinary64_eq (q : ℚ) (e k : ℤ) (he : -1022 ≤ e) (hlo : (2 : ℚ) ^ e ≤ |q|)
    (hhi : |q| < (2 : ℚ) ^ (e + 1)) (hk : |q / (2 : ℚ) ^ (e - 52) - k| < 1 / 2) :
    roundBinary64 q = k * (2 : ℚ) ^ (e - 52) := by
  unfold roundBinary64
  rw [ulp64_eq q e he hlo hhi, roundHalfEven_eq _ k hk]

theorem isBinary64_one : IsBinary64 1 :=
  ⟨1, 0, by norm_num, by norm_num, by norm_num⟩

theorem isBinary64_hundred : IsBinary64 100 :=
  ⟨100, 0, by norm_num, by norm_num, by norm_num⟩

theorem roundBinary64_one : roundBinary64 1 = 1 :=
  le_antisymm (roundBinary64_le 1 1 one_pos isBinary64_one le_rfl)
    (le_roundBinary64 1 1 one_pos isBinary64_one le_rfl)

theorem roundBinary64_hundred : roundBinary64 100 = 100 :=
  le_antisymm (roundBinary64_le 100 100 (by norm_num) isBinary64_hundred le_rfl)
    (le_roundBinary64 100 100 (by norm_num) isBinary64_hundred le_rfl)

theorem ofRat_of_bounds (q : ℚ) (h0 : 0 ≤ roundBinary64 q) (h1 : roundBinary64 q ≤ 100) :
    JSNumber.ofRat q = .finite (roundBinary64 q) := by
  have hbig : (100 : ℚ) < (2 : ℚ) ^ 1024 := by norm_num
  unfold JSNumber.ofRat
  rw [if_neg (by linarith), if_neg (by linarith)]

/-- The progress computed by `updateSlide` for position `n` of `t` slides,
`1 ≤ n ≤ t < 2 ^ 53`: a finite binary64 value above 0 and at most 100, which is
100 exactly at the last position. -/
theorem progress_bounds (n t : ℤ) (hn : 1 ≤ n) (hnt : n ≤ t) (ht : t < 2 ^ 53) :
    (JSNumber.divInt n t).mul100
        = .finite (roundBinary64 (roundBinary64 ((n : ℚ) / (t : ℚ)) * 100)) ∧
      0 < roundBinary64 (roundBinary64 ((n : ℚ) / (t : ℚ)) * 100) ∧
      roundBinary64 (roundBinary64 ((n : ℚ) / (t : ℚ)) * 100) ≤ 100 ∧
      (roundBinary64 (roundBinary64 ((n : ℚ) / (t : ℚ)) * 100) = 100 ↔ n = t) := by
  have htpos : (0 : ℚ) < t := by exact_mod_cast (by omega : (0 : ℤ) < t)
  have hnpos : (1 : ℚ) ≤ n := by exact_mod_cast hn
  have hntq : (n : ℚ) ≤ t := by exact_mod_cast hnt
  have htq : (t : ℚ) < 2 ^ 53 := by exact_mod_cast ht
  have hqpos : (0 : ℚ) < (n : ℚ) / t := div_pos (by linarith) htpos
  have hq1 : (n : ℚ) / t ≤ 1 := (div_le_one htpos).2 hntq
  -- the quotient
  have hx1 : roundBinary64 ((n : ℚ) / t) ≤ 1 :=
    roundBinary64_le _ 1 hqpos isBinary64_one hq1
  have hsmall : IsBinary64 ((2 : ℚ) ^ (-53 : ℤ)) :=
    ⟨1, -53, by norm_num, by norm_num, by norm_num⟩
  have hx0 : (2 : ℚ) ^ (-53 : ℤ) ≤ roundBinary64 ((n : ℚ) / t) := by
    apply le_roundBinary64 _ _ (zpow_pos (by norm_num) _) hsmall
    rw [le_div_iff₀ htpos]
    have : (2 : ℚ) ^ (-53 : ℤ) * t ≤ (2 : ℚ) ^ (-53 : ℤ) * 2 ^ 53 :=
      mul_le_mul_of_nonneg_left (le_of_lt htq) (le_of_lt (zpow_pos (by norm_num) _))
    have h2 : (2 : ℚ) ^ (-53 : ℤ) * 2 ^ 53 = 1 := by norm_num
    linarith
  have hx0pos : (0 : ℚ) < roundBinary64 ((n : ℚ) / t) :=
    lt_of_lt_of_le (zpow_pos (by norm_num) _) hx0
  have hdiv : JSNumber.divInt n t = .finite (roundBinary64 ((n : ℚ) / t)) := by
    unfold JSNumber.divInt
    rw [if_pos (by omega : t ≠ 0)]
    exact ofRat_of_bounds _ (le_of_lt hx0pos) (by linarith)
  -- the product
  have hypos : (0 : ℚ) < roundBinary64 ((n : ℚ) / t) * 100 := by positivity
  have hy100 : roundBinary64 ((n : ℚ) / t) * 100 ≤ 100 := by linarith
  have hp100 : roundBinary64 (roundBinary64 ((n : ℚ) / t) * 100) ≤ 100 :=
    roundBinary64_le _ 100 hypos isBinary64_hundred hy100
  have htiny : IsBinary64 ((2 : ℚ) ^ (-47 : ℤ)) :=
    ⟨1, -47, by norm_num, by norm_num, by norm_num⟩
  have hp0 : (2 : ℚ) ^ (-47 : ℤ) ≤ roundBinary64 (roundBinary64 ((n : ℚ) / t) * 100) := by
    apply le_roundBinary64 _ _ (zpow_pos (by norm_num) _) htiny
    have h3 : (2 : ℚ) ^ (-47 : ℤ) ≤ (2 : ℚ) ^ (-53 : ℤ) * 100 := by norm_num
    linarith
  have hp0pos : (0 : ℚ) < roundBinary64 (roundBinary64 ((n : ℚ) / t) * 100) :=
    lt_of_lt_of_le (zpow_pos (by norm_num) _) hp0
  refine ⟨?_, hp0pos, hp100, ?_⟩
  · rw [hdiv]
    exact ofRat_of_bounds _ (le_of_lt hp0pos) hp100
  · constructor
    · intro heq
      by_contra hne
      have hlt : n ≤ t - 1 := by omega
      have hltq : (n : ℚ) ≤ t - 1 := by exact_mod_cast hlt
      -- the quotient is at most the binary64 value just below 1
      have hbelow : IsBinary64 (1 - (2 : ℚ) ^ (-53 : ℤ)) :=
        ⟨2 ^ 53 - 1, -53, by norm_num, by norm_num, by norm_num⟩
      have hqle : (n : ℚ) / t ≤ 1 - (2 : ℚ) ^ (-53 : ℤ) := by
        rw [div_le_iff₀ htpos]
        have h4 : (2 : ℚ) ^ (-53 : ℤ) * t ≤ 1 := by
          have : (2 : ℚ) ^ (-53 : ℤ) * t ≤ (2 : ℚ) ^ (-53 : ℤ) * 2 ^ 53 :=
            mul_le_mul_of_nonneg_left (le_of_lt htq) (le_of_lt (zpow_pos (by norm_num) _))
          have h2 : (2 : ℚ) ^ (-53 : ℤ) * 2 ^ 53 = 1 := by norm_num
          linarith
        nlinarith
      have hxle : roundBinary64 ((n : ℚ) / t) ≤ 1 - (2 : ℚ) ^ (-53 : ℤ) :=
        roundBinary64_le _ _ hqpos hbelow hqle
      have hyle : roundBinary64 ((n : ℚ) / t) * 100 ≤ 100 - 100 * (2 : ℚ) ^ (-53 : ℤ) := by
        linarith
      -- the product rounds to at most the binary64 value just below 100
      have hpred : IsBinary64 (100 - (2 : ℚ) ^ (-46 : ℤ)) :=
        ⟨7036874417766399, -46, by norm_num, by norm_num, by norm_num⟩
      have hplt : roundBinary64 (roundBinary64 ((n : ℚ) / t) * 100)
          ≤ 100 - (2 : ℚ) ^ (-46 : ℤ) := by
        by_cases hcase : roundBinary64 ((n : ℚ) / t) * 100 ≤ 100 - (2 : ℚ) ^ (-46 : ℤ)
        · exact roundBinary64_le _ _ hypos hpred hcase
        · push_neg at hcase
          have habs : |roundBinary64 ((n : ℚ) / t) * 100| = roundBinary64 ((n : ℚ) / t) * 100 :=
            abs_of_pos hypos
          have h64 : (100 : ℚ) - (2 : ℚ) ^ (-46 : ℤ) ≥ (2 : ℚ) ^ (6 : ℤ) := by norm_num
          have hev := roundBinary64_eq (roundBinary64 ((n : ℚ) / t) * 100) 6 7036874417766399
            (by norm_num) (by rw [habs]; linarith)
            (by rw [habs]; norm_num; linarith)
            (by
              rw [abs_lt]
              have e1 : (2 : ℚ) ^ ((6 : ℤ) - 52) = (2 : ℚ) ^ (-46 : ℤ) := by norm_num
              rw [e1]
              have e2 : roundBinary64 ((n : ℚ) / t) * 100 / (2 : ℚ) ^ (-46 : ℤ)
                  = roundBinary64 ((n : ℚ) / t) * 100 * 2 ^ 46 := by
                rw [zpow_neg, div_inv_eq_mul]
                norm_num
              rw [e2]
              have e3 : (100 - (2 : ℚ) ^ (-46 : ℤ)) * 2 ^ 46 = 7036874417766399 := by norm_num
              have e4 : (100 - 100 * (2 : ℚ) ^ (-53 : ℤ)) * 2 ^ 46
                  = 7036874417766399 + 7 / 32 := by norm_num
              have p46 : (0 : ℚ) < 2 ^ 46 := by norm_num
              have l1 := mul_lt_mul_of_pos_right hcase p46
              have l2 := mul_le_mul_of_nonneg_right hyle (le_of_lt p46)
              rw [e3] at l1
              rw [e4] at l2
              constructor
              · push_cast; linarith
              · push_cast; linarith)
          rw [hev]
          norm_num
      rw [heq] at hplt
      have : (0 : ℚ) < (2 : ℚ) ^ (-46 : ℤ) := zpow_pos (by norm_num) _
      linarith
    · intro heq
      have hq : (n : ℚ) / t = 1 := by
        rw [heq]
        exact div_self (ne_of_gt htpos)
      rw [hq, roundBinary64_one, one_mul, roundBinary64_hundred]

theorem abs_roundHalfEven_sub_le (m : ℚ) : |(roundHalfEven m : ℚ) - m| ≤ 1 / 2 := by
  have hf := Int.floor_le m
  have hf2 := Int.lt_floor_add_one m
  rw [abs_le]
  unfold roundHalfEven
  split_ifs with h1 h2 h3
  · constructor <;> linarith
  · push_cast
    constructor <;> linarith
  · have hfr : m - ⌊m⌋ = 1 / 2 := le_antisymm (not_lt.1 h2) (not_lt.1 h1)
    constructor <;> linarith
  · have hfr : m - ⌊m⌋ = 1 / 2 := le_antisymm (not_lt.1 h2) (not_lt.1 h1)
    push_cast
    constructor <;> linarith

theorem abs_roundBinary64_sub_le (q : ℚ) (hq : (2 : ℚ) ^ (-1022 : ℤ) ≤ q) :
    |roundBinary64 q - q| ≤ q * (2 : ℚ) ^ (-53 : ℤ) := by
  have hqpos : 0 < q := lt_of_lt_of_le (zpow_pos (by norm_num) _) hq
  have habs : |q| = q := abs_of_pos hqpos
  have hlog : (-1022 : ℤ) ≤ Int.log 2 |q| :=
    (Int.zpow_le_iff_le_log (by norm_num) (by rw [habs]; exact hqpos)).1
      (by rw [habs]; exact_mod_cast hq)
  have hle : ((2 : ℕ) : ℚ) ^ Int.log 2 |q| ≤ |q| :=
    Int.zpow_log_le_self (by norm_num) (by rw [habs]; exact hqpos)
  have hle2 : (2 : ℚ) ^ Int.log 2 |q| ≤ q := by
    have h := hle
    simp only [Nat.cast_ofNat] at h
    exact le_trans h (le_of_eq habs)
  have hu : ulp64 q = (2 : ℚ) ^ (Int.log 2 |q| - 52) := by
    unfold ulp64
    rw [max_eq_left hlog]
  have hupos := ulp64_pos q
  have hhalf : ulp64 q * (1 / 2) ≤ q * (2 : ℚ) ^ (-53 : ℤ) := by
    have e1 : ulp64 q * (1 / 2) = (2 : ℚ) ^ Int.log 2 |q| * (2 : ℚ) ^ (-53 : ℤ) := by
      rw [hu, sub_eq_add_neg, zpow_add₀ (by norm_num : (2 : ℚ) ≠ 0)]
      norm_num
      ring
    rw [e1]
    exact mul_le_mul_of_nonneg_right hle2 (le_of_lt (zpow_pos (by norm_num) _))
  have hm := abs_roundHalfEven_sub_le (q / ulp64 q)
  have e2 : roundBinary64 q - q = ((roundHalfEven (q / ulp64 q) : ℚ) - q / ulp64 q) * ulp64 q := by
    unfold roundBinary64
    field_simp
  rw [e2, abs_mul, abs_of_pos hupos]
  calc |(roundHalfEven (q / ulp64 q) : ℚ) - q / ulp64 q| * ulp64 q
      ≤ 1 / 2 * ulp64 q := mul_le_mul_of_nonneg_right hm (le_of_lt hupos)
    _ = ulp64 q * (1 / 2) := by ring
    _ ≤ q * (2 : ℚ) ^ (-53 : ℤ) := hhalf

/-- The two roundings of the progress leave it within one part in `2 ^ 51` of
the exact percentage. -/
theorem progress_error (n t : ℤ) (hn : 1 ≤ n) (hnt : n ≤ t) (ht : t < 2 ^ 53) :
    |roundBinary64 (roundBinary64 ((n : ℚ) / (t : ℚ)) * 100) - (n : ℚ) / (t : ℚ) * 100|
      ≤ (n : ℚ) / (t : ℚ) * 100 * (2 : ℚ) ^ (-51 : ℤ) := by
  have htpos : (0 : ℚ) < t := by exact_mod_cast (by omega : (0 : ℤ) < t)
  have hnpos : (1 : ℚ) ≤ n := by exact_mod_cast hn
  have htq : (t : ℚ) < 2 ^ 53 := by exact_mod_cast ht
  have hqpos : (0 : ℚ) < (n : ℚ) / t := div_pos (by linarith) htpos
  have hqlow : (2 : ℚ) ^ (-53 : ℤ) ≤ (n : ℚ) / t := by
    rw [le_div_iff₀ htpos]
    have : (2 : ℚ) ^ (-53 : ℤ) * t ≤ (2 : ℚ) ^ (-53 : ℤ) * 2 ^ 53 :=
      mul_le_mul_of_nonneg_left (le_of_lt htq) (le_of_lt (zpow_pos (by norm_num) _))
    have h2 : (2 : ℚ) ^ (-53 : ℤ) * 2 ^ 53 = 1 := by norm_num
    linarith
  have hmono : (2 : ℚ) ^ (-1022 : ℤ) ≤ (2 : ℚ) ^ (-53 : ℤ) :=
    zpow_le_zpow_right₀ (by norm_num) (by norm_num)
  have hsmall : IsBinary64 ((2 : ℚ) ^ (-53 : ℤ)) :=
    ⟨1, -53, by norm_num, by norm_num, by norm_num⟩
  have hx0 : (2 : ℚ) ^ (-53 : ℤ) ≤ roundBinary64 ((n : ℚ) / t) :=
    le_roundBinary64 _ _ (zpow_pos (by norm_num) _) hsmall hqlow
  have e1 := abs_roundBinary64_sub_le ((n : ℚ) / t) (le_trans hmono hqlow)
  have e2 := abs_roundBinary64_sub_le (roundBinary64 ((n : ℚ) / t) * 100)
    (by linarith [zpow_pos (by norm_num : (0 : ℚ) < 2) (-53 : ℤ)])
  rw [abs_le] at e1 e2 ⊢
  have c53 : (2 : ℚ) ^ (-53 : ℤ) = 1 / 9007199254740992 := by norm_num
  have c51 : (2 : ℚ) ^ (-51 : ℤ) = 1 / 2251799813685248 := by norm_num
  rw [c53] at e1 e2
  rw [c51]
  obtain ⟨a1, a2⟩ := e1
  obtain ⟨b1, b2⟩ := e2
  constructor <;> nlinarith

theorem roundBinary64_eq_of_pos (q : ℚ) (e k : ℤ) (he : -1022 ≤ e) (hlo : (2 : ℚ) ^ e ≤ q)
    (hhi : q < (2 : ℚ) ^ (e + 1)) (hk1 : (k : ℚ) - 1 / 2 < q / (2 : ℚ) ^ (e - 52))
    (hk2 : q / (2 : ℚ) ^ (e - 52) < (k : ℚ) + 1 / 2) :
    roundBinary64 q = k * (2 : ℚ) ^ (e - 52) := by
  have hq : 0 < q := lt_of_lt_of_le (zpow_pos (by norm_num) _) hlo
  have habs : |q| = q := abs_of_pos hq
  apply roundBinary64_eq q e k he (by rw [habs]; exact hlo) (by rw [habs]; exact hhi)
  rw [abs_lt]
  constructor <;> linarith

/-! ## Auxiliary facts about the render loop -/

theorem isActive_classListRemove (slide : List String) :
    isActive (classListRemove "active" slide) = false := by
  simp [isActive, classListRemove]

theorem isActive_classListAdd (slide : List String) :
    isActive (classListAdd "active" slide) = true := by
  unfold classListAdd isActive
  split <;> simp_all

theorem forEachSlide_length (c : Int) (l : List (List String)) (k : Nat) :
    (forEachSlide c k l).length = l.length := by
  induction l generalizing k with
  | nil => rfl
  | cons slide rest ih => simp [forEachSlide, ih]

theorem forEachSlide_flags (c : Int) (l : List (List String)) (k : Nat) :
    (forEachSlide c k l).map isActive =
      (List.range l.length).map (fun (i : Nat) => decide (((k + i : Nat) : Int) = c)) := by
  induction l generalizing k with
  | nil => rfl
  | cons slide rest ih =>
    rw [List.length_cons, List.range_succ_eq_map, forEachSlide, List.map_cons, List.map_cons,
      List.map_map, ih (k + 1)]
    congr 1
    · by_cases h : (k : Int) = c
      · simp [h, isActive_classListAdd]
      · simp [h, isActive_classListRemove]
    · apply List.map_congr_left
      intro i _
      simp only [Function.comp, Nat.succ_eq_add_one]
      have : k + 1 + i = k + (i + 1) := by omega
      rw [this]

theorem count_flags (c : Int) (n : Nat) :
    ((List.range n).map (fun (i : Nat) => decide ((i : Int) = c))).count true =
      if 0 ≤ c ∧ c < (n : Int) then 1 else 0 := by
  induction n with
  | zero =>
    have h : ¬ (0 ≤ c ∧ c < ((0 : Nat) : Int)) := by omega
    rw [if_neg h]
    rfl
  | succ n ih =>
    rw [List.range_succ, List.map_append, List.count_append, ih]
    push_cast
    by_cases h : (n : Int) = c
    · have h1 : ¬ (0 ≤ c ∧ c < (n : Int)) := by omega
      have h2 : 0 ≤ c ∧ c < (n : Int) + 1 := by omega
      rw [if_neg h1, if_pos h2]
      simp [h]
    · by_cases h3 : 0 ≤ c ∧ c < (n : Int)
      · have h2 : 0 ≤ c ∧ c < (n : Int) + 1 := by omega
        rw [if_pos h3, if_pos h2]
        simp [h]
      · have h2 : ¬ (0 ≤ c ∧ c < (n : Int) + 1) := by omega
        rw [if_neg h3, if_neg h2]
        simp [h]

theorem countP_eq_count_flags (l : List (List String)) :
    l.countP isActive = (l.map isActive).count true := by
  induction l with
  | nil => rfl
  | cons slide rest ih =>
    cases h : isActive slide <;> simp [List.countP_cons, List.count_cons, h, ih]

/-! ## Auxiliary facts about the handlers -/

theorem updateSlide_cursor (s : State) :
    (updateSlide s).state.currentSlide = s.currentSlide ∧
      (updateSlide s).state.totalSlides = s.totalSlides ∧
      (updateSlide s).state.listeners = s.listeners := by
  unfold updateSlide
  rcases s with ⟨⟨sl, pb, nb, ct, pg⟩, c, t, ls⟩
  cases ct <;> cases pg <;> cases pb <;> cases nb <;> simp [Outcome.state]

theorem updateSlide_completed (s : State) (h : s.handlesPresent = true) :
    ∃ r, updateSlide s = .completed r ∧ r.currentSlide = s.currentSlide ∧
      r.totalSlides = s.totalSlides ∧ r.listeners = s.listeners ∧
      r.slides.length = s.slides.length ∧
      r.view = viewOf s.currentSlide s.totalSlides s.slides.length := by
  rcases s with ⟨⟨sl, pb, nb, ct, pg⟩, c, t, ls⟩
  cases ct <;> cases pg <;> cases pb <;> cases nb <;>
    simp [Document.handlesPresent] at h
  refine ⟨_, rfl, rfl, rfl, rfl, ?_, ?_⟩
  · simp [forEachSlide_length]
  · simp only [State.view, viewOf, forEachSlide_flags, disabledStyle, fullStyle]
    simp only [Nat.zero_add, View.mk.injEq, true_and]
    refine ⟨?_, ?_⟩
    · split <;> rfl
    · split <;> rfl


theorem updateSlide_threw (s : State) (h : s.handlesPresent = false) :
    ∃ handle r, updateSlide s = .threw handle r := by
  rcases s with ⟨⟨sl, pb, nb, ct, pg⟩, c, t, ls⟩
  cases ct with
  | none => exact ⟨.counter, _, rfl⟩
  | some ct =>
    cases pg with
    | none => exact ⟨.progressBar, _, rfl⟩
    | some pg =>
      cases pb with
      | none => exact ⟨.prevBtn, _, rfl⟩
      | some pb =>
        cases nb with
        | none => exact ⟨.nextBtn, _, rfl⟩
        | some nb => simp [Document.handlesPresent] at h

/-! ## The invariant of an initialised page -/

theorem Ready.handlesPresent {s : State} (h : Ready s) : s.handlesPresent = true := by
  obtain ⟨_, _, _, _, hv⟩ := h
  simp only [State.view, viewOf, View.mk.injEq] at hv
  obtain ⟨_, hc, hp, hpb, hnb⟩ := hv
  simp [Document.handlesPresent, hc, hp, hpb, hnb]

theorem updateSlide_ready (s : State) (hh : s.handlesPresent = true)
    (hl : s.listeners = Listeners.all) (ht : s.totalSlides = s.slides.length)
    (h0 : 0 ≤ s.currentSlide) (h1 : s.currentSlide < (s.totalSlides : Int)) :
    ∃ r, updateSlide s = .completed r ∧ Ready r ∧ r.currentSlide = s.currentSlide ∧
      r.totalSlides = s.totalSlides := by
  obtain ⟨r, hr, hc, htot, hlis, hlen, hview⟩ := updateSlide_completed s hh
  refine ⟨r, hr, ⟨?_, ?_, ?_, ?_, ?_⟩, hc, htot⟩
  · rw [hlis, hl]
  · rw [htot, hlen, ht]
  · rw [hc]; exact h0
  · rw [hc, htot]; exact h1
  · rw [hview, hc, htot, ← ht]

theorem nextSlide_ready (s : State) (h : Ready s) :
    ∃ r, nextSlide s = .completed r ∧ Ready r ∧ r.totalSlides = s.totalSlides := by
  unfold nextSlide
  split
  · rename_i hlt
    have hh := h.handlesPresent
    obtain ⟨hl, ht, h0, h1, _⟩ := h
    obtain ⟨r, hr, hready, _, htot⟩ :=
      updateSlide_ready { s with currentSlide := s.currentSlide + 1 } hh hl ht
        (by show 0 ≤ s.currentSlide + 1; omega)
        (by show s.currentSlide + 1 < (s.totalSlides : Int); omega)
    exact ⟨r, hr, hready, htot⟩
  · exact ⟨s, rfl, h, rfl⟩

theorem prevSlide_ready (s : State) (h : Ready s) :
    ∃ r, prevSlide s = .completed r ∧ Ready r ∧ r.totalSlides = s.totalSlides := by
  unfold prevSlide
  split
  · rename_i hlt
    have hh := h.handlesPresent
    obtain ⟨hl, ht, h0, h1, _⟩ := h
    obtain ⟨r, hr, hready, _, htot⟩ :=
      updateSlide_ready { s with currentSlide := s.currentSlide - 1 } hh hl ht
        (by show 0 ≤ s.currentSlide - 1; omega)
        (by show s.currentSlide - 1 < (s.totalSlides : Int); omega)
    exact ⟨r, hr, hready, htot⟩
  · exact ⟨s, rfl, h, rfl⟩

theorem dispatch_ready (s : State) (e : Event) (h : Ready s) :
    ∃ r, dispatch s e = .completed r ∧ Ready r ∧ r.totalSlides = s.totalSlides := by
  have hl := h.1
  cases e with
  | clickNext =>
    simp only [dispatch, hl, Listeners.all, if_true]
    exact nextSlide_ready s h
  | clickPrev =>
    simp only [dispatch, hl, Listeners.all, if_true]
    exact prevSlide_ready s h
  | keydown key =>
    simp only [dispatch, hl, Listeners.all, if_true]
    unfold keydownListener
    split
    · exact nextSlide_ready s h
    · split
      · exact prevSlide_ready s h
      · exact ⟨s, rfl, h, rfl⟩

theorem run_ready (s : State) (evs : List Event) (h : Ready s) :
    Ready (run s evs) ∧ (run s evs).totalSlides = s.totalSlides := by
  induction evs generalizing s with
  | nil => exact ⟨h, rfl⟩
  | cons e es ih =>
    obtain ⟨r, hr, hready, htot⟩ := dispatch_ready s e h
    have := ih r hready
    simp only [run, hr, Outcome.state]
    exact ⟨this.1, this.2.trans htot⟩

theorem domContentLoaded_completed (d : Document) (s0 : State)
    (h : domContentLoaded d = .completed s0) :
    d.handlesPresent = true ∧ s0.listeners = Listeners.all ∧
      s0.totalSlides = d.slides.length ∧ s0.slides.length = d.slides.length ∧
      s0.currentSlide = 0 ∧ s0.view = viewOf 0 d.slides.length d.slides.length := by
  rcases d with ⟨sl, pb, nb, ct, pg⟩
  cases nb with
  | none => simp [domContentLoaded] at h
  | some nb =>
    cases pb with
    | none => simp [domContentLoaded] at h
    | some pb =>
      cases ct with
      | none => simp [domContentLoaded, updateSlide] at h
      | some ct =>
        cases pg with
        | none => simp [domContentLoaded, updateSlide] at h
        | some pg =>
          refine ⟨rfl, ?_⟩
          simp only [domContentLoaded] at h
          obtain ⟨r, hr, hc, htot, hlis, hlen, hview⟩ := updateSlide_completed
            { toDocument := ⟨sl, some pb, some nb, some ct, some pg⟩, currentSlide := 0,
              totalSlides := sl.length, listeners := Listeners.all } rfl
          have hs : s0 = r := by
            have := h.symm.trans hr
            injection this
          subst hs
          exact ⟨hlis, htot, hlen, hc, hview⟩

theorem domContentLoaded_threw (d : Document) (handle : Handle) (s : State)
    (h : domContentLoaded d = .threw handle s) :
    s.currentSlide = 0 ∧ s.listeners = listenersAtThrow handle := by
  rcases d with ⟨sl, pb, nb, ct, pg⟩
  cases nb with
  | none =>
    simp only [domContentLoaded] at h
    injection h with h1 h2
    subst h1 h2
    exact ⟨rfl, rfl⟩
  | some nb =>
    cases pb with
    | none =>
      simp only [domContentLoaded] at h
      injection h with h1 h2
      subst h1 h2
      exact ⟨rfl, rfl⟩
    | some pb =>
      cases ct with
      | none =>
        simp only [domContentLoaded, updateSlide] at h
        injection h with h1 h2
        subst h1 h2
        exact ⟨rfl, rfl⟩
      | some ct =>
        cases pg with
        | none =>
          simp only [domContentLoaded, updateSlide] at h
          injection h with h1 h2
          subst h1 h2
          exact ⟨rfl, rfl⟩
        | some pg =>
          simp [domContentLoaded, updateSlide] at h

theorem domContentLoaded_ready (d : Document) (s0 : State)
    (h : domContentLoaded d = .completed s0) (hpos : 1 ≤ d.slides.length) :
    Ready s0 ∧ s0.totalSlides = d.slides.length := by
  obtain ⟨_, hl, ht, hlen, hc, hv⟩ := domContentLoaded_completed d s0 h
  refine ⟨⟨hl, by rw [ht, hlen], by rw [hc], by rw [hc, ht]; omega, ?_⟩, ht⟩
  rw [hv, hc, ht]

theorem reachable_ready (d : Document) (s0 : State) (evs : List Event)
    (h : domContentLoaded d = .completed s0) (hpos : 1 ≤ d.slides.length) :
    Ready (run s0 evs) ∧ (run s0 evs).totalSlides = d.slides.length := by
  obtain ⟨hr, ht⟩ := domContentLoaded_ready d s0 h hpos
  have := run_ready s0 evs hr
  exact ⟨this.1, this.2.trans ht⟩


/-! ## Cursor arithmetic of the navigation functions -/

theorem nextSlide_cursor (s : State) :
    (nextSlide s).state.currentSlide =
        (if s.currentSlide < (s.totalSlides : Int) - 1 then s.currentSlide + 1
          else s.currentSlide) ∧
      (nextSlide s).state.totalSlides = s.totalSlides := by
  unfold nextSlide
  split
  · have := updateSlide_cursor { s with currentSlide := s.currentSlide + 1 }
    exact ⟨this.1, this.2.1⟩
  · exact ⟨rfl, rfl⟩

theorem prevSlide_cursor (s : State) :
    (prevSlide s).state.currentSlide =
        (if s.currentSlide > 0 then s.currentSlide - 1 else s.currentSlide) ∧
      (prevSlide s).state.totalSlides = s.totalSlides := by
  unfold prevSlide
  split
  · have := updateSlide_cursor { s with currentSlide := s.currentSlide - 1 }
    exact ⟨this.1, this.2.1⟩
  · exact ⟨rfl, rfl⟩

theorem nextSlideTimes_cursor (n : Nat) (s : State)
    (h : s.currentSlide ≤ (s.totalSlides : Int) - 1) :
    (nextSlideTimes n s).currentSlide = min (s.currentSlide + n) ((s.totalSlides : Int) - 1) ∧
      (nextSlideTimes n s).totalSlides = s.totalSlides := by
  induction n generalizing s with
  | zero =>
    refine ⟨?_, rfl⟩
    show s.currentSlide = _
    rw [min_def]
    split <;> push_cast at * <;> omega
  | succ n ih =>
    obtain ⟨hc, ht⟩ := nextSlide_cursor s
    have hle : (nextSlide s).state.currentSlide ≤ ((nextSlide s).state.totalSlides : Int) - 1 := by
      rw [hc, ht]; split <;> omega
    obtain ⟨ih1, ih2⟩ := ih (nextSlide s).state hle
    refine ⟨?_, ih2.trans ht⟩
    show (nextSlideTimes n (nextSlide s).state).currentSlide = _
    rw [ih1, hc, ht, min_def, min_def]
    push_cast
    split <;> split <;> split <;> omega

theorem prevSlideTimes_cursor (n : Nat) (s : State) (h : 0 ≤ s.currentSlide) :
    (prevSlideTimes n s).currentSlide = max (s.currentSlide - n) 0 ∧
      (prevSlideTimes n s).totalSlides = s.totalSlides := by
  induction n generalizing s with
  | zero =>
    refine ⟨?_, rfl⟩
    show s.currentSlide = _
    rw [max_def]
    split <;> push_cast at * <;> omega
  | succ n ih =>
    obtain ⟨hc, ht⟩ := prevSlide_cursor s
    have hle : 0 ≤ (prevSlide s).state.currentSlide := by
      rw [hc]; split <;> omega
    obtain ⟨ih1, ih2⟩ := ih (prevSlide s).state hle
    refine ⟨?_, ih2.trans ht⟩
    show (prevSlideTimes n (prevSlide s).state).currentSlide = _
    rw [ih1, hc, max_def, max_def]
    push_cast
    split <;> split <;> split <;> omega

theorem run_of_no_slides (s : State) (evs : List Event)
    (ht : s.totalSlides = 0) (hc : s.currentSlide = 0) : run s evs = s := by
  induction evs with
  | nil => rfl
  | cons e es ih =>
    have hn : nextSlide s = .completed s := by
      unfold nextSlide
      rw [if_neg (by rw [hc, ht]; decide)]
    have hp : prevSlide s = .completed s := by
      unfold prevSlide
      rw [if_neg (by rw [hc]; decide)]
    have hd : dispatch s e = .completed s := by
      cases e with
      | clickNext => simp only [dispatch, hn, ite_self]
      | clickPrev => simp only [dispatch, hp, ite_self]
      | keydown key => simp only [dispatch, keydownListener, hn, hp, ite_self]
    simp only [run, hd, Outcome.state]
    exact ih


/-! ## What every event keeps -/

theorem dispatch_listeners (s : State) (e : Event) :
    (dispatch s e).state.listeners = s.listeners := by
  have hn : (nextSlide s).state.listeners = s.listeners := by
    unfold nextSlide
    split
    · exact (updateSlide_cursor { s with currentSlide := s.currentSlide + 1 }).2.2
    · rfl
  have hp : (prevSlide s).state.listeners = s.listeners := by
    unfold prevSlide
    split
    · exact (updateSlide_cursor { s with currentSlide := s.currentSlide - 1 }).2.2
    · rfl
  cases e with
  | clickNext =>
    simp only [dispatch]
    split
    · exact hn
    · rfl
  | clickPrev =>
    simp only [dispatch]
    split
    · exact hp
    · rfl
  | keydown key =>
    simp only [dispatch, keydownListener]
    split
    · split
      · exact hn
      · split
        · exact hp
        · rfl
    · rfl

theorem run_listeners (s : State) (evs : List Event) : (run s evs).listeners = s.listeners := by
  induction evs generalizing s with
  | nil => rfl
  | cons e es ih =>
    simp only [run]
    rw [ih, dispatch_listeners]

theorem run_handlesPresent (d : Document) (s0 : State) (evs : List Event)
    (h : domContentLoaded d = .completed s0) : (run s0 evs).handlesPresent = true := by
  rcases Nat.eq_zero_or_pos d.slides.length with hz | hpos
  · obtain ⟨_, _, ht, _, hc, hv⟩ := domContentLoaded_completed d s0 h
    rw [run_of_no_slides s0 evs (ht.trans hz) hc]
    simp only [State.view, viewOf, View.mk.injEq] at hv
    obtain ⟨_, h1, h2, h3, h4⟩ := hv
    simp [Document.handlesPresent, h1, h2, h3, h4]
  · exact (reachable_ready d s0 evs h hpos).1.handlesPresent

theorem run_listeners_agree (d : Document) (evs : List Event)
    (h : ∀ r, domContentLoaded d ≠ .threw .prevBtn r) :
    (run (domContentLoaded d).state evs).listeners.keydown
        = (run (domContentLoaded d).state evs).listeners.nextBtnClick ∧
      (run (domContentLoaded d).state evs).listeners.keydown
        = (run (domContentLoaded d).state evs).listeners.prevBtnClick := by
  rw [run_listeners]
  cases hd : domContentLoaded d with
  | completed s0 =>
    have hl := (domContentLoaded_completed d s0 hd).2.1
    simp only [Outcome.state, hl, Listeners.all, and_self]
  | threw handle r =>
    have hl := (domContentLoaded_threw d handle r hd).2
    cases handle with
    | prevBtn => exact absurd hd (h r)
    | nextBtn => simp only [Outcome.state, hl, listenersAtThrow, and_self]
    | counter => simp only [Outcome.state, hl, listenersAtThrow, Listeners.all, and_self]
    | progressBar => simp only [Outcome.state, hl, listenersAtThrow, Listeners.all, and_self]

/-! ## Cursor range (C1) -/

/-- C1, counterexample: on a startup document with the four handles and no
slide, initialisation completes with `totalSlides = 0` and cursor `0`, so the
cursor is not below `totalSlides` right after the initial render. -/
theorem cursor_range_fails_on_emptyDeck :
    ∃ s0, domContentLoaded emptyDeck = .completed s0 ∧
      s0.totalSlides = emptyDeck.slides.length ∧
      ¬ (0 ≤ (run s0 []).currentSlide ∧
          (run s0 []).currentSlide < ((run s0 []).totalSlides : Int)) :=
  ⟨(domContentLoaded emptyDeck).state, rfl, rfl, by decide⟩

/-- C1, amended: for every startup document on which initialisation completes
and every finite sequence of click and key-down events, `totalSlides` is the
number of slides found and the cursor is never negative; it is below
`totalSlides` whenever at least one slide was found, and stays `0` when none
was. -/
theorem cursor_range_invariant (d : Document) (s0 : State) (evs : List Event)
    (h : domContentLoaded d = .completed s0) :
    (run s0 evs).totalSlides = d.slides.length ∧
      0 ≤ (run s0 evs).currentSlide ∧
      (1 ≤ d.slides.length → (run s0 evs).currentSlide < ((run s0 evs).totalSlides : Int)) ∧
      (d.slides.length = 0 → (run s0 evs).currentSlide = 0) := by
  rcases Nat.eq_zero_or_pos d.slides.length with hz | hpos
  · obtain ⟨_, _, ht, _, hc, _⟩ := domContentLoaded_completed d s0 h
    have hrun := run_of_no_slides s0 evs (ht.trans hz) hc
    rw [hrun]
    exact ⟨ht, by rw [hc], fun h1 => by omega, fun _ => hc⟩
  · obtain ⟨⟨_, _, h0, h1, _⟩, ht⟩ := reachable_ready d s0 evs h hpos
    exact ⟨ht, h0, fun _ => h1, fun hz => by omega⟩

/-- C1, witness of the amended invariant on the five-slide deck after two
advances and one retreat. -/
theorem cursor_range_invariant_witness :
    domContentLoaded deck5 = .completed (domContentLoaded deck5).state ∧
      (run (domContentLoaded deck5).state [.clickNext, .keydown "Enter", .clickPrev]).totalSlides
        = 5 ∧
      0 ≤ (run (domContentLoaded deck5).state
        [.clickNext, .keydown "Enter", .clickPrev]).currentSlide :=
  ⟨rfl,
    (cursor_range_invariant deck5 (domContentLoaded deck5).state
      [.clickNext, .keydown "Enter", .clickPrev] rfl).1,
    (cursor_range_invariant deck5 (domContentLoaded deck5).state
      [.clickNext, .keydown "Enter", .clickPrev] rfl).2.1⟩

/-! ## Initialisation (C2) -/

/-- C2, counterexample: the startup document with the four handles and no slide
is initialised without any error; the first render computes the progress with
`totalSlides = 0` and writes `Infinity%`. -/
theorem domContentLoaded_emptyDeck_completes :
    emptyDeck.slides.length = 0 ∧
      ∃ s0, domContentLoaded emptyDeck = .completed s0 ∧ s0.totalSlides = 0 ∧
        s0.counter = some "1 / 0" ∧
        s0.progressBar = some (.percent .posInfinity) :=
  ⟨rfl, (domContentLoaded emptyDeck).state, rfl, rfl, by decide, by decide⟩

/-- C2, amended: initialisation throws, instead of completing, exactly when one
of the four handles is absent; the number of slides plays no part. The
listeners registered before the throw stay registered: none when `nextBtn` is
absent, the advance click alone when `prevBtn` is, all three when the counter
or the progress bar is. With the four handles and no slide initialisation
completes, the first render computes the progress with `totalSlides = 0`
(`Infinity`), and the state it leaves is changed by no navigation event. -/
theorem domContentLoaded_throws_iff (d : Document) :
    ((∃ handle s, domContentLoaded d = .threw handle s) ↔ d.handlesPresent = false) ∧
      ((∃ s0, domContentLoaded d = .completed s0) ↔ d.handlesPresent = true) ∧
      (∀ handle s, domContentLoaded d = .threw handle s →
        s.currentSlide = 0 ∧ s.listeners = listenersAtThrow handle) ∧
      (d.handlesPresent = true → d.slides.length = 0 →
        ∃ s0, domContentLoaded d = .completed s0 ∧ s0.totalSlides = 0 ∧
          s0.currentSlide = 0 ∧ s0.progressBar = some (.percent .posInfinity) ∧
          ∀ evs, run s0 evs = s0) := by
  have hcomp : d.handlesPresent = true → ∃ s0, domContentLoaded d = .completed s0 := by
    intro hh
    rcases d with ⟨sl, pb, nb, ct, pg⟩
    cases ct <;> cases pg <;> cases pb <;> cases nb <;>
      simp [Document.handlesPresent] at hh
    rename_i ct pg pb nb
    obtain ⟨r, hr, _⟩ := updateSlide_completed
      { toDocument := ⟨sl, some pb, some nb, some ct, some pg⟩, currentSlide := 0,
        totalSlides := sl.length, listeners := Listeners.all } rfl
    exact ⟨r, hr⟩
  refine ⟨⟨?_, ?_⟩, ⟨?_, hcomp⟩, domContentLoaded_threw d, ?_⟩
  · rintro ⟨handle, s, hs⟩
    cases hh : d.handlesPresent with
    | false => rfl
    | true =>
      obtain ⟨s0, hs0⟩ := hcomp hh
      rw [hs0] at hs
      cases hs
  · intro hh
    cases hd : domContentLoaded d with
    | threw handle s => exact ⟨handle, s, rfl⟩
    | completed s0 =>
      have := (domContentLoaded_completed d s0 hd).1
      rw [hh] at this
      cases this
  · rintro ⟨s0, hs0⟩
    exact (domContentLoaded_completed d s0 hs0).1
  · intro hh hz
    obtain ⟨s0, hs0⟩ := hcomp hh
    obtain ⟨_, _, ht, _, hc, hv⟩ := domContentLoaded_completed d s0 hs0
    refine ⟨s0, hs0, ht.trans hz, hc, ?_, fun evs => run_of_no_slides s0 evs (ht.trans hz) hc⟩
    have hp : s0.progressBar = (viewOf 0 d.slides.length d.slides.length).progressWidth :=
      congrArg View.progressWidth hv
    rw [hp, hz]
    rfl

/-- C2, witness: a deck whose counter is missing throws with the three
listeners registered, and the empty deck completes into a state that ignores a
click on the advance control. -/
theorem domContentLoaded_throws_iff_witness :
    (∃ handle s, domContentLoaded { deck5 with counter := none } = .threw handle s) ∧
      (domContentLoaded { deck5 with counter := none }).state.listeners = Listeners.all ∧
      ∃ s0, domContentLoaded emptyDeck = .completed s0 ∧ run s0 [.clickNext] = s0 :=
  ⟨(domContentLoaded_throws_iff { deck5 with counter := none }).1.2 rfl,
    ((domContentLoaded_throws_iff { deck5 with counter := none }).2.2.1 .counter
      (domContentLoaded { deck5 with counter := none }).state rfl).2,
    ((domContentLoaded_throws_iff emptyDeck).2.2.2 rfl rfl).imp
      fun _ hs => ⟨hs.1, hs.2.2.2.2 [.clickNext]⟩⟩

/-! ## Advance and retreat (C3, C4, C5) -/

/-- C3, counterexample: on the five-slide page whose initialisation threw on
the missing progress bar (the three listeners are registered by then),
`nextSlide` at cursor 0, below `totalSlides - 1`, moves the cursor to 1 and
throws in the render, leaving a view that is not the one of cursor 1. -/
theorem nextSlide_unsynchronised_without_progressBar :
    (domContentLoaded deckNoProgress).state.listeners = Listeners.all ∧
      (domContentLoaded deckNoProgress).state.currentSlide = 0 ∧
      (domContentLoaded deckNoProgress).state.totalSlides = 5 ∧
      ∃ r, nextSlide (domContentLoaded deckNoProgress).state = .threw .progressBar r ∧
        r.currentSlide = 1 ∧ r.view ≠ viewOf 1 5 5 :=
  ⟨rfl, rfl, rfl, (nextSlide (domContentLoaded deckNoProgress).state).state, rfl, rfl,
    fun h => Option.noConfusion (congrArg View.progressWidth h)⟩

/-- C3, amended: in every state, `nextSlide` with the cursor below
`totalSlides - 1` leaves the cursor one higher; when the four handles are
present it completes with the view (active flags, counter text, progress width,
button styles) synchronised with the new cursor, and when one is absent it
throws in the render. With the cursor at or above `totalSlides - 1` it returns
the state it was given, unchanged, in every state. The four handles are present
in every state reached from a completed initialisation. -/
theorem nextSlide_spec (s : State) :
    (s.currentSlide < (s.totalSlides : Int) - 1 →
        (nextSlide s).state.currentSlide = s.currentSlide + 1 ∧
        (nextSlide s).state.totalSlides = s.totalSlides ∧
        (s.handlesPresent = true →
          ∃ r, nextSlide s = .completed r ∧
            r.view = viewOf (s.currentSlide + 1) s.totalSlides s.slides.length) ∧
        (s.handlesPresent = false → ∃ handle r, nextSlide s = .threw handle r)) ∧
      (¬ s.currentSlide < (s.totalSlides : Int) - 1 → nextSlide s = .completed s) ∧
      (∀ (d : Document) (s0 : State) (evs : List Event),
        domContentLoaded d = .completed s0 → s = run s0 evs → s.handlesPresent = true) := by
  refine ⟨?_, ?_, fun d s0 evs h hs => hs ▸ run_handlesPresent d s0 evs h⟩
  · intro hlt
    have hcur := nextSlide_cursor s
    rw [if_pos hlt] at hcur
    refine ⟨hcur.1, hcur.2, ?_, ?_⟩
    · intro hh
      obtain ⟨r, hr, _, _, _, _, hv⟩ :=
        updateSlide_completed { s with currentSlide := s.currentSlide + 1 } hh
      refine ⟨r, ?_, hv⟩
      unfold nextSlide
      rw [if_pos hlt]
      exact hr
    · intro hh
      unfold nextSlide
      rw [if_pos hlt]
      exact updateSlide_threw { s with currentSlide := s.currentSlide + 1 } hh
  · intro hge
    unfold nextSlide
    rw [if_neg hge]

/-- C3, witness: on the initialised five-slide deck an advance moves the cursor
from 0 to 1 and renders the view of cursor 1, and an advance at the last slide
changes nothing. -/
theorem nextSlide_spec_witness :
    (nextSlide (domContentLoaded deck5).state).state.currentSlide = 0 + 1 ∧
      (∃ r, nextSlide (domContentLoaded deck5).state = .completed r ∧
        r.view = viewOf (0 + 1) 5 5) ∧
      nextSlide (nextSlideTimes 4 (domContentLoaded deck5).state) =
        .completed (nextSlideTimes 4 (domContentLoaded deck5).state) :=
  ⟨((nextSlide_spec (domContentLoaded deck5).state).1 (by decide)).1,
    ((nextSlide_spec (domContentLoaded deck5).state).1 (by decide)).2.2.1 (by decide),
    (nextSlide_spec (nextSlideTimes 4 (domContentLoaded deck5).state)).2.1 (by decide)⟩

/-- C4, counterexample: on the five-slide page whose initialisation threw on
the missing progress bar, after two advances (cursor 2) `prevSlide` moves the
cursor to 1 and throws in the render, leaving a view that is not the one of
cursor 1. -/
theorem prevSlide_unsynchronised_without_progressBar :
    (nextSlideTimes 2 (domContentLoaded deckNoProgress).state).currentSlide = 2 ∧
      ∃ r, prevSlide (nextSlideTimes 2 (domContentLoaded deckNoProgress).state)
          = .threw .progressBar r ∧
        r.currentSlide = 1 ∧ r.view ≠ viewOf 1 5 5 :=
  ⟨rfl, (prevSlide (nextSlideTimes 2 (domContentLoaded deckNoProgress).state)).state, rfl, rfl,
    fun h => Option.noConfusion (congrArg View.progressWidth h)⟩

/-- C4, amended: in every state, `prevSlide` with the cursor above 0 leaves the
cursor one lower; when the four handles are present it completes with the view
synchronised with the new cursor, and when one is absent it throws in the
render. With the cursor at 0 or below it returns the state it was given,
unchanged, in every state. The four handles are present in every state reached
from a completed initialisation. -/
theorem prevSlide_spec (s : State) :
    (s.currentSlide > 0 →
        (prevSlide s).state.currentSlide = s.currentSlide - 1 ∧
        (prevSlide s).state.totalSlides = s.totalSlides ∧
        (s.handlesPresent = true →
          ∃ r, prevSlide s = .completed r ∧
            r.view = viewOf (s.currentSlide - 1) s.totalSlides s.slides.length) ∧
        (s.handlesPresent = false → ∃ handle r, prevSlide s = .threw handle r)) ∧
      (¬ s.currentSlide > 0 → prevSlide s = .completed s) ∧
      (∀ (d : Document) (s0 : State) (evs : List Event),
        domContentLoaded d = .completed s0 → s = run s0 evs → s.handlesPresent = true) := by
  refine ⟨?_, ?_, fun d s0 evs h hs => hs ▸ run_handlesPresent d s0 evs h⟩
  · intro hlt
    have hcur := prevSlide_cursor s
    rw [if_pos hlt] at hcur
    refine ⟨hcur.1, hcur.2, ?_, ?_⟩
    · intro hh
      obtain ⟨r, hr, _, _, _, _, hv⟩ :=
        updateSlide_completed { s with currentSlide := s.currentSlide - 1 } hh
      refine ⟨r, ?_, hv⟩
      unfold prevSlide
      rw [if_pos hlt]
      exact hr
    · intro hh
      unfold prevSlide
      rw [if_pos hlt]
      exact updateSlide_threw { s with currentSlide := s.currentSlide - 1 } hh
  · intro hge
    unfold prevSlide
    rw [if_neg hge]

/-- C4, witness: on the five-slide deck a retreat from the last slide moves the
cursor from 4 to 3 and renders the view of cursor 3, and a retreat at the first
slide changes nothing. -/
theorem prevSlide_spec_witness :
    (prevSlide (nextSlideTimes 4 (domContentLoaded deck5).state)).state.currentSlide = 4 - 1 ∧
      (∃ r, prevSlide (nextSlideTimes 4 (domContentLoaded deck5).state) = .completed r ∧
        r.view = viewOf (4 - 1) 5 5) ∧
      prevSlide (domContentLoaded deck5).state = .completed (domContentLoaded deck5).state :=
  ⟨((prevSlide_spec (nextSlideTimes 4 (domContentLoaded deck5).state)).1 (by decide)).1,
    ((prevSlide_spec (nextSlideTimes 4 (domContentLoaded deck5).state)).1 (by decide)).2.2.1
      (by decide),
    (prevSlide_spec (domContentLoaded deck5).state).2.1 (by decide)⟩

/-- C5: with at least one slide, `n` consecutive `nextSlide` calls from cursor 0
leave the cursor at `min n (totalSlides - 1)`, and `n` consecutive `prevSlide`
calls from cursor `totalSlides - 1` leave it at `max (totalSlides - 1 - n) 0`. -/
theorem bounded_walk (s : State) (n : Nat) (hpos : 1 ≤ s.totalSlides) :
    (s.currentSlide = 0 →
        (nextSlideTimes n s).currentSlide = min (n : Int) ((s.totalSlides : Int) - 1)) ∧
      (s.currentSlide = (s.totalSlides : Int) - 1 →
        (prevSlideTimes n s).currentSlide = max ((s.totalSlides : Int) - 1 - n) 0) := by
  constructor
  · intro hc
    have h := (nextSlideTimes_cursor n s (by rw [hc]; omega)).1
    rw [hc, zero_add] at h
    exact h
  · intro hc
    have h := (prevSlideTimes_cursor n s (by rw [hc]; omega)).1
    rw [hc] at h
    exact h

/-- C5, witness, the scenario with five slides: from 0 one advance gives 1,
four give 4, five still give 4, and one retreat from 4 gives 3. -/
theorem bounded_walk_witness :
    (nextSlideTimes 1 (domContentLoaded deck5).state).currentSlide = 1 ∧
      (nextSlideTimes 4 (domContentLoaded deck5).state).currentSlide = 4 ∧
      (nextSlideTimes 5 (domContentLoaded deck5).state).currentSlide = 4 ∧
      (prevSlideTimes 1 (nextSlideTimes 4 (domContentLoaded deck5).state)).currentSlide = 3 :=
  ⟨(bounded_walk (domContentLoaded deck5).state 1 (by decide)).1 rfl,
    (bounded_walk (domContentLoaded deck5).state 4 (by decide)).1 rfl,
    (bounded_walk (domContentLoaded deck5).state 5 (by decide)).1 rfl,
    (bounded_walk (nextSlideTimes 4 (domContentLoaded deck5).state) 1 (by decide)).2 rfl⟩


/-! ## The rendered view of a reachable state (C6, C7, C8, C9) -/

/-- C6: with at least one slide, in every state reached from a completed
initialisation by any sequence of events, exactly one slide carries the
`active` mark, and a slide carries it exactly when its index is the cursor,
whatever marks the startup document had. -/
theorem exactly_one_active (d : Document) (s0 : State) (evs : List Event)
    (h : domContentLoaded d = .completed s0) (hpos : 1 ≤ d.slides.length) :
    (run s0 evs).slides.length = d.slides.length ∧
      (run s0 evs).slides.countP isActive = 1 ∧
      ∀ (i : Nat) (hi : i < (run s0 evs).slides.length),
        isActive ((run s0 evs).slides.get ⟨i, hi⟩) = true ↔ (i : Int) = (run s0 evs).currentSlide := by
  obtain ⟨⟨_, hlen, h0, h1, hv⟩, ht⟩ := reachable_ready d s0 evs h hpos
  have hflags : (run s0 evs).slides.map isActive =
      (List.range (run s0 evs).totalSlides).map
        (fun (i : Nat) => decide ((i : Int) = (run s0 evs).currentSlide)) :=
    congrArg View.activeFlags hv
  refine ⟨by rw [← hlen, ht], ?_, ?_⟩
  · rw [countP_eq_count_flags, hflags, count_flags, if_pos ⟨h0, h1⟩]
  · intro i hi
    have hget := congrArg (fun l => l[i]?) hflags
    simp only [List.getElem?_map, List.getElem?_eq_getElem hi,
      List.getElem?_range (hlen ▸ hi), Option.map_some', Option.some.injEq] at hget
    rw [List.get_eq_getElem, hget]
    simp

/-- C6, witness: the five-slide deck, whose startup document marks the second
and fourth slide, after an advance and a retreat at the first slide. -/
theorem exactly_one_active_witness :
    (run (domContentLoaded deck5).state [.clickPrev, .clickNext, .clickPrev]).slides.countP
        isActive = 1 ∧
      (run (domContentLoaded deck5).state [.clickPrev, .clickNext, .clickPrev]).slides.map
        isActive = [true, false, false, false, false] :=
  ⟨(exactly_one_active deck5 (domContentLoaded deck5).state
      [.clickPrev, .clickNext, .clickPrev] rfl (by decide)).2.1, by decide⟩

/-- C7, counterexample: on the initialised three-slide deck (cursor 0) the
progress written is the binary64 value `2345624805922133 / 2 ^ 46`, printed
`33.33333333333333`, which is not `((0 + 1) / 3) * 100`. -/
theorem progress_not_exact_on_deck3 :
    ∃ s0, domContentLoaded deck3 = .completed s0 ∧ s0.currentSlide = 0 ∧ s0.totalSlides = 3 ∧
      s0.progressBar = some (.percent (.finite (2345624805922133 / 2 ^ 46))) ∧
      (2345624805922133 / 2 ^ 46 : ℚ) ≠ ((0 + 1 : ℚ) / 3) * 100 := by
  refine ⟨(domContentLoaded deck3).state, rfl, rfl, rfl, ?_, by norm_num⟩
  have hp : (domContentLoaded deck3).state.progressBar
      = some (.percent (JSNumber.divInt 1 3).mul100) := rfl
  have hx : roundBinary64 ((1 : ℚ) / 3) = 6004799503160661 * (2 : ℚ) ^ ((-2 : ℤ) - 52) :=
    roundBinary64_eq_of_pos _ (-2) 6004799503160661 (by norm_num) (by norm_num) (by norm_num)
      (by norm_num) (by norm_num)
  have hy : roundBinary64 (6004799503160661 * (2 : ℚ) ^ ((-2 : ℤ) - 52) * 100)
      = 4691249611844266 * (2 : ℚ) ^ ((5 : ℤ) - 52) :=
    roundBinary64_eq_of_pos _ 5 4691249611844266 (by norm_num) (by norm_num) (by norm_num)
      (by norm_num) (by norm_num)
  have hb := (progress_bounds 1 3 (by norm_num) (by norm_num) (by norm_num)).1
  have hq : ((1 : ℤ) : ℚ) / ((3 : ℤ) : ℚ) = 1 / 3 := by norm_num
  rw [hp, hb, hq, hx, hy]
  norm_num

/-- C7, amended: with at least one slide and a slide count below `2 ^ 53`, in
every state reached from a completed initialisation the progress width is the
binary64 value of `((c + 1) / totalSlides) * 100` percent for the current
cursor `c`, the quotient rounded to nearest and the product rounded again; it
is within one part in `2 ^ 51` of the exact percentage, above 0, at most 100,
and 100 exactly when `c = totalSlides - 1`. -/
theorem progress_width_binary64 (d : Document) (s0 : State) (evs : List Event)
    (h : domContentLoaded d = .completed s0) (hpos : 1 ≤ d.slides.length)
    (hlt : d.slides.length < 2 ^ 53) :
    ∃ p : ℚ, (run s0 evs).progressBar = some (.percent (.finite p)) ∧
      p = roundBinary64 (roundBinary64
        ((((run s0 evs).currentSlide + 1 : Int) : ℚ) / (((run s0 evs).totalSlides : Int) : ℚ))
          * 100) ∧
      |p - (((run s0 evs).currentSlide + 1 : Int) : ℚ) / (((run s0 evs).totalSlides : Int) : ℚ)
          * 100|
        ≤ (((run s0 evs).currentSlide + 1 : Int) : ℚ) / (((run s0 evs).totalSlides : Int) : ℚ)
          * 100 * (2 : ℚ) ^ (-51 : ℤ) ∧
      0 < p ∧ p ≤ 100 ∧
      (p = 100 ↔ (run s0 evs).currentSlide = ((run s0 evs).totalSlides : Int) - 1) := by
  obtain ⟨⟨_, _, h0, h1, hv⟩, ht⟩ := reachable_ready d s0 evs h hpos
  have hp : (run s0 evs).progressBar = _ := congrArg View.progressWidth hv
  have hn : 1 ≤ (run s0 evs).currentSlide + 1 := by omega
  have hnt : (run s0 evs).currentSlide + 1 ≤ ((run s0 evs).totalSlides : Int) := by omega
  have htl : ((run s0 evs).totalSlides : Int) < 2 ^ 53 := by
    rw [ht]
    exact_mod_cast hlt
  obtain ⟨hval, hpos', hle, hiff⟩ := progress_bounds _ _ hn hnt htl
  refine ⟨_, ?_, rfl, progress_error _ _ hn hnt htl, hpos', hle, ?_⟩
  · rw [hp]
    simp only [viewOf]
    rw [hval]
  · rw [hiff]
    constructor <;> intro heq <;> omega

/-- C7, witness, five slides: cursor 1 gives 40 percent, cursor 4 gives 100
percent, cursor 3 gives 80 percent. -/
theorem progress_width_binary64_witness :
    (run (domContentLoaded deck5).state [.clickNext]).progressBar
        = some (.percent (.finite 40)) ∧
      (run (domContentLoaded deck5).state
          [.clickNext, .clickNext, .clickNext, .clickNext]).progressBar
        = some (.percent (.finite 100)) ∧
      (run (domContentLoaded deck5).state
          [.clickNext, .clickNext, .clickNext, .clickNext, .clickPrev]).progressBar
        = some (.percent (.finite 80)) := by
  refine ⟨?_, ?_, ?_⟩
  · obtain ⟨p, hp, hval, _⟩ := progress_width_binary64 deck5 (domContentLoaded deck5).state
      [.clickNext] rfl (by decide) (by decide)
    have hc : (run (domContentLoaded deck5).state [.clickNext]).currentSlide = 1 := by decide
    have ht : (run (domContentLoaded deck5).state [.clickNext]).totalSlides = 5 := by decide
    have hx : roundBinary64 ((2 : ℚ) / 5) = 7205759403792794 * (2 : ℚ) ^ ((-2 : ℤ) - 52) :=
      roundBinary64_eq_of_pos _ (-2) 7205759403792794 (by norm_num) (by norm_num) (by norm_num)
        (by norm_num) (by norm_num)
    have hy : roundBinary64 (7205759403792794 * (2 : ℚ) ^ ((-2 : ℤ) - 52) * 100)
        = 5629499534213120 * (2 : ℚ) ^ ((5 : ℤ) - 52) :=
      roundBinary64_eq_of_pos _ 5 5629499534213120 (by norm_num) (by norm_num) (by norm_num)
        (by norm_num) (by norm_num)
    have hq : (((1 : ℤ) + 1 : ℤ) : ℚ) / ((((5 : ℕ) : ℤ)) : ℚ) = 2 / 5 := by norm_num
    rw [hc, ht, hq, hx, hy] at hval
    rw [hp, hval]
    norm_num
  · obtain ⟨p, hp, _, _, _, _, hiff⟩ := progress_width_binary64 deck5
      (domContentLoaded deck5).state [.clickNext, .clickNext, .clickNext, .clickNext] rfl
      (by decide) (by decide)
    rw [hp, hiff.2 (by decide)]
  · obtain ⟨p, hp, hval, _⟩ := progress_width_binary64 deck5 (domContentLoaded deck5).state
      [.clickNext, .clickNext, .clickNext, .clickNext, .clickPrev] rfl (by decide) (by decide)
    have hc : (run (domContentLoaded deck5).state
        [.clickNext, .clickNext, .clickNext, .clickNext, .clickPrev]).currentSlide = 3 := by
      decide
    have ht : (run (domContentLoaded deck5).state
        [.clickNext, .clickNext, .clickNext, .clickNext, .clickPrev]).totalSlides = 5 := by
      decide
    have hx : roundBinary64 ((4 : ℚ) / 5) = 7205759403792794 * (2 : ℚ) ^ ((-1 : ℤ) - 52) :=
      roundBinary64_eq_of_pos _ (-1) 7205759403792794 (by norm_num) (by norm_num) (by norm_num)
        (by norm_num) (by norm_num)
    have hy : roundBinary64 (7205759403792794 * (2 : ℚ) ^ ((-1 : ℤ) - 52) * 100)
        = 5629499534213120 * (2 : ℚ) ^ ((6 : ℤ) - 52) :=
      roundBinary64_eq_of_pos _ 6 5629499534213120 (by norm_num) (by norm_num) (by norm_num)
        (by norm_num) (by norm_num)
    have hq : (((3 : ℤ) + 1 : ℤ) : ℚ) / ((((5 : ℕ) : ℤ)) : ℚ) = 4 / 5 := by norm_num
    rw [hc, ht, hq, hx, hy] at hval
    rw [hp, hval]
    norm_num

/-- C8: with at least one slide, in every state reached from a completed
initialisation the counter text is the decimal rendering of the position
`c + 1`, then a slash between two blanks, then the decimal rendering of
`totalSlides`; the position lies between 1 and `totalSlides`. -/
theorem counter_text (d : Document) (s0 : State) (evs : List Event)
    (h : domContentLoaded d = .completed s0) (hpos : 1 ≤ d.slides.length) :
    ∃ position : Nat, (position : Int) = (run s0 evs).currentSlide + 1 ∧
      1 ≤ position ∧ position ≤ (run s0 evs).totalSlides ∧
      (run s0 evs).totalSlides = d.slides.length ∧
      (run s0 evs).counter =
        some (Nat.repr position ++ " / " ++ Nat.repr (run s0 evs).totalSlides) := by
  obtain ⟨⟨_, _, h0, h1, hv⟩, ht⟩ := reachable_ready d s0 evs h hpos
  have hc : (run s0 evs).counter = _ := congrArg View.counterText hv
  refine ⟨((run s0 evs).currentSlide + 1).toNat, ?_, ?_, ?_, ht, ?_⟩
  · omega
  · omega
  · omega
  · rw [hc]
    have hpn : (run s0 evs).currentSlide + 1
        = ((((run s0 evs).currentSlide + 1).toNat : Nat) : Int) := by omega
    simp only [viewOf]
    rw [hpn]
    rfl

/-- C8, witness, five slides: cursor 1 reads `2 / 5` and cursor 4 reads `5 / 5`. -/
theorem counter_text_witness :
    (∃ position : Nat,
        (position : Int) = (run (domContentLoaded deck5).state [.clickNext]).currentSlide + 1 ∧
        1 ≤ position ∧ position ≤ 5) ∧
      (run (domContentLoaded deck5).state [.clickNext]).counter = some "2 / 5" ∧
      (run (domContentLoaded deck5).state
        [.clickNext, .clickNext, .clickNext, .clickNext]).counter = some "5 / 5" :=
  ⟨(counter_text deck5 (domContentLoaded deck5).state [.clickNext] rfl (by decide)).imp
      fun _ hp => ⟨hp.1, hp.2.1, hp.2.2.1⟩,
    by decide, by decide⟩

/-- C9: with at least one slide, in every state reached from a completed
initialisation the retreat control shows the disabled affordance (opacity
`0.5`, cursor `default`) exactly when the cursor is 0 and the advance control
exactly when the cursor is `totalSlides - 1`, each showing the full affordance
(opacity `1`, cursor `pointer`) otherwise; a control is disabled exactly when a
click on it leaves the state unchanged, and with one slide both are disabled. -/
theorem boundary_affordance (d : Document) (s0 : State) (evs : List Event)
    (h : domContentLoaded d = .completed s0) (hpos : 1 ≤ d.slides.length) :
    (run s0 evs).prevBtn = some
        (if (run s0 evs).currentSlide = 0 then { opacity := "0.5", cursor := "default" }
          else { opacity := "1", cursor := "pointer" }) ∧
      (run s0 evs).nextBtn = some
        (if (run s0 evs).currentSlide = ((run s0 evs).totalSlides : Int) - 1
          then { opacity := "0.5", cursor := "default" }
          else { opacity := "1", cursor := "pointer" }) ∧
      ((run s0 evs).prevBtn = some disabledStyle ↔ (run s0 evs).currentSlide = 0) ∧
      ((run s0 evs).nextBtn = some disabledStyle ↔
        (run s0 evs).currentSlide = ((run s0 evs).totalSlides : Int) - 1) ∧
      ((run s0 evs).prevBtn = some disabledStyle ↔
        dispatch (run s0 evs) .clickPrev = .completed (run s0 evs)) ∧
      ((run s0 evs).nextBtn = some disabledStyle ↔
        dispatch (run s0 evs) .clickNext = .completed (run s0 evs)) ∧
      (d.slides.length = 1 →
        (run s0 evs).prevBtn = some disabledStyle ∧ (run s0 evs).nextBtn = some disabledStyle) := by
  obtain ⟨⟨hl, _, h0, h1, hv⟩, ht⟩ := reachable_ready d s0 evs h hpos
  have hpb : (run s0 evs).prevBtn = _ := congrArg View.prevStyle hv
  have hnb : (run s0 evs).nextBtn = _ := congrArg View.nextStyle hv
  simp only [viewOf] at hpb hnb
  have hne : fullStyle ≠ disabledStyle := by decide
  have hprev : (run s0 evs).prevBtn = some disabledStyle ↔ (run s0 evs).currentSlide = 0 := by
    rw [hpb]
    by_cases hc : (run s0 evs).currentSlide = 0
    · rw [if_pos hc]
      exact ⟨fun _ => hc, fun _ => rfl⟩
    · rw [if_neg hc]
      exact ⟨fun heq => absurd (Option.some.inj heq) hne, fun hc0 => absurd hc0 hc⟩
  have hnext : (run s0 evs).nextBtn = some disabledStyle ↔
      (run s0 evs).currentSlide = ((run s0 evs).totalSlides : Int) - 1 := by
    rw [hnb]
    by_cases hc : (run s0 evs).currentSlide = ((run s0 evs).totalSlides : Int) - 1
    · rw [if_pos hc]
      exact ⟨fun _ => hc, fun _ => rfl⟩
    · rw [if_neg hc]
      exact ⟨fun heq => absurd (Option.some.inj heq) hne, fun hc0 => absurd hc0 hc⟩
  have hdp : dispatch (run s0 evs) .clickPrev = .completed (run s0 evs) ↔
      (run s0 evs).currentSlide = 0 := by
    simp only [dispatch, hl, Listeners.all, if_true]
    constructor
    · intro heq
      have hcur := (prevSlide_cursor (run s0 evs)).1
      rw [heq] at hcur
      simp only [Outcome.state] at hcur
      by_contra hc
      rw [if_pos (by omega)] at hcur
      omega
    · intro hc
      unfold prevSlide
      rw [if_neg (by omega)]
  have hdn : dispatch (run s0 evs) .clickNext = .completed (run s0 evs) ↔
      (run s0 evs).currentSlide = ((run s0 evs).totalSlides : Int) - 1 := by
    simp only [dispatch, hl, Listeners.all, if_true]
    constructor
    · intro heq
      have hcur := (nextSlide_cursor (run s0 evs)).1
      rw [heq] at hcur
      simp only [Outcome.state] at hcur
      by_contra hc
      rw [if_pos (by omega)] at hcur
      omega
    · intro hc
      unfold nextSlide
      rw [if_neg (by omega)]
  refine ⟨hpb, hnb, hprev, hnext, hprev.trans hdp.symm, hnext.trans hdn.symm, ?_⟩
  intro h1s
  exact ⟨hprev.2 (by omega), hnext.2 (by omega)⟩

/-- C9, witness, five slides: at the last slide the advance control is disabled
and the retreat control is not; after one retreat neither is. -/
theorem boundary_affordance_witness :
    (run (domContentLoaded deck5).state
        [.clickNext, .clickNext, .clickNext, .clickNext]).nextBtn
        = some { opacity := "0.5", cursor := "default" } ∧
      (run (domContentLoaded deck5).state
        [.clickNext, .clickNext, .clickNext, .clickNext]).prevBtn
        = some { opacity := "1", cursor := "pointer" } ∧
      (run (domContentLoaded deck5).state
        [.clickNext, .clickNext, .clickNext, .clickNext, .clickPrev]).nextBtn
        = some { opacity := "1", cursor := "pointer" } :=
  ⟨(boundary_affordance deck5 (domContentLoaded deck5).state
      [.clickNext, .clickNext, .clickNext, .clickNext] rfl (by decide)).2.1,
    (boundary_affordance deck5 (domContentLoaded deck5).state
      [.clickNext, .clickNext, .clickNext, .clickNext] rfl (by decide)).1,
    (boundary_affordance deck5 (domContentLoaded deck5).state
      [.clickNext, .clickNext, .clickNext, .clickNext, .clickPrev] rfl (by decide)).2.1⟩

/-! ## Keyboard equivalence (C10) -/

/-- C10, counterexample: on the five-slide page whose initialisation threw on
the missing retreat control only the advance click listener is registered; a
click on the advance control moves the cursor to 1 while a key-down of
`ArrowRight` leaves the state as it was. -/
theorem keydown_differs_without_prevBtn :
    (domContentLoaded deckNoPrev).state.listeners
        = { nextBtnClick := true, prevBtnClick := false, keydown := false } ∧
      (domContentLoaded deckNoPrev).state.currentSlide = 0 ∧
      (dispatch (domContentLoaded deckNoPrev).state .clickNext).state.currentSlide = 1 ∧
      dispatch (domContentLoaded deckNoPrev).state (.keydown "ArrowRight")
        = .completed (domContentLoaded deckNoPrev).state ∧
      dispatch (domContentLoaded deckNoPrev).state (.keydown "ArrowRight")
        ≠ dispatch (domContentLoaded deckNoPrev).state .clickNext :=
  ⟨rfl, rfl, rfl, rfl, fun h =>
    absurd (congrArg (fun o => o.state.currentSlide) h) (by decide)⟩

/-- C10, amended: the key-down listener calls `nextSlide` for `ArrowRight`, the
space key and `Enter` and `prevSlide` for `ArrowLeft`, the functions the click
listeners are; so in every state in which the key-down listener is registered
exactly when the click listener of the control is, such a key-down has the
same outcome as a click on the advance, respectively the retreat, control. A
key-down of any other key leaves every state as it was. The two registrations
agree in every state reached from an initialisation that did not throw on the
retreat control. -/
theorem keyboard_equivalence (s : State) :
    (keydownListener s "ArrowRight" = nextSlide s ∧ keydownListener s " " = nextSlide s ∧
        keydownListener s "Enter" = nextSlide s ∧ keydownListener s "ArrowLeft" = prevSlide s) ∧
      (s.listeners.keydown = s.listeners.nextBtnClick →
        dispatch s (.keydown "ArrowRight") = dispatch s .clickNext ∧
        dispatch s (.keydown " ") = dispatch s .clickNext ∧
        dispatch s (.keydown "Enter") = dispatch s .clickNext) ∧
      (s.listeners.keydown = s.listeners.prevBtnClick →
        dispatch s (.keydown "ArrowLeft") = dispatch s .clickPrev) ∧
      (∀ key : String, key ≠ "ArrowRight" → key ≠ " " → key ≠ "Enter" → key ≠ "ArrowLeft" →
        dispatch s (.keydown key) = .completed s) ∧
      (∀ (d : Document) (evs : List Event),
        (∀ r, domContentLoaded d ≠ .threw .prevBtn r) → s = run (domContentLoaded d).state evs →
          s.listeners.keydown = s.listeners.nextBtnClick ∧
          s.listeners.keydown = s.listeners.prevBtnClick) := by
  have hr : keydownListener s "ArrowRight" = nextSlide s := by simp [keydownListener]
  have hs : keydownListener s " " = nextSlide s := by simp [keydownListener]
  have he : keydownListener s "Enter" = nextSlide s := by simp [keydownListener]
  have hl : keydownListener s "ArrowLeft" = prevSlide s := by simp [keydownListener]
  refine ⟨⟨hr, hs, he, hl⟩, ?_, ?_, ?_, fun d evs h hst => hst ▸ run_listeners_agree d evs h⟩
  · intro h
    simp only [dispatch, h, hr, hs, he, and_self]
  · intro h
    simp only [dispatch, h, hl]
  · intro key h1 h2 h3 h4
    simp [dispatch, keydownListener, h1, h2, h3, h4]

/-- C10, witness on the initialised five-slide deck: the space key advances as
a click does, `ArrowLeft` retreats as a click does, and the `Escape` key
changes nothing. -/
theorem keyboard_equivalence_witness :
    (domContentLoaded deck5).state.listeners = Listeners.all ∧
      dispatch (domContentLoaded deck5).state (.keydown " ")
        = dispatch (domContentLoaded deck5).state .clickNext ∧
      dispatch (domContentLoaded deck5).state (.keydown "ArrowLeft")
        = dispatch (domContentLoaded deck5).state .clickPrev ∧
      dispatch (domContentLoaded deck5).state (.keydown "Escape")
        = .completed (domContentLoaded deck5).state :=
  ⟨rfl,
    ((keyboard_equivalence (domContentLoaded deck5).state).2.1 rfl).2.1,
    (keyboard_equivalence (domContentLoaded deck5).state).2.2.1 rfl,
    (keyboard_equivalence (domContentLoaded deck5).state).2.2.2.1 "Escape"
      (by decide) (by decide) (by decide) (by decide)⟩

end Presentation
